import Mathlib

/-!
Verification development for the `batimetric-automation` repository.

The TypeScript source (`src/pages/index.tsx`, `src/utils/constants.ts`,
`src/interfaces`) is shallowly embedded below:

* pure string parsing (`parseCoordinate`, `parseStringCoordinate` with its
  regex) is embedded over `List Char` and exact rationals `ℚ`
  (JS floating point is idealised as exact arithmetic);
* the Web-Mercator projection (`calcXValue`, `calcYValue`,
  `latLonToEnvelope`) is embedded over `ℝ`;
* the batch scheduler `runInBatches` is embedded as a fuel-indexed queue
  transformer, parameterised by a fetch oracle
  `fetch : ℚ → ℚ → ℕ → List F` giving, for the parsed latitude, longitude
  and the attempted `mapLayerId`, the feature list of that attempt after
  the source's try/catch has already turned fetch errors into `[]`
  (the envelope sent over the network is a deterministic function of the
  parsed latitude/longitude, so the oracle granularity is faithful).
-/

/-! ### Character helpers (JS character classes) -/

/-- JS `\d`, i.e. exactly the ASCII digits `0`–`9`. -/
def isDigitCh (c : Char) : Bool :=
  48 ≤ c.toNat ∧ c.toNat ≤ 57

/-- JS `\s` restricted to its ASCII part (space, tab, LF, VT, FF, CR).
Exotic Unicode space characters are outside this model; no claim
exercises them. -/
def jsIsSpace (c : Char) : Bool :=
  c.toNat = 32 ∨ c.toNat = 9 ∨ c.toNat = 10 ∨ c.toNat = 11 ∨
    c.toNat = 12 ∨ c.toNat = 13

/-- The degree sign `°` (U+00B0). -/
def degreeChar : Char := Char.ofNat 176

/-- The ASCII apostrophe (U+0027), kept as a named constant. -/
def aposChar : Char := Char.ofNat 39

/-- The ASCII double quote (U+0022), kept as a named constant. -/
def quoteChar : Char := Char.ofNat 34

/-- Value of a string of ASCII digits, as read by JS `parseInt(s, 10)`
on an all-digit string. -/
def digitsToNat (cs : List Char) : ℕ :=
  cs.foldl (fun acc c => 10 * acc + (c.toNat - 48)) 0

/-- Leading JS sign: consumes one `+` or `-` and reports the sign. -/
def parseSignInt : List Char → ℤ × List Char
  | c :: t => if c = '-' then (-1, t) else if c = '+' then (1, t) else (1, c :: t)
  | [] => (1, [])

/-- JS `parseFloat`: skips leading whitespace, reads an optional sign and
the longest decimal-literal prefix (integer digits, optional fraction,
optional exponent), ignores any trailing garbage, and is `none` exactly
when no digit occurs (JS `NaN`).  The JS `Infinity` literal lies outside
`ℚ` and outside this model; no claim exercises it. -/
def jsParseFloat (s : String) : Option ℚ :=
  let cs := s.toList.dropWhile jsIsSpace
  let sgn := parseSignInt cs
  let intPart := sgn.2.takeWhile isDigitCh
  let rest1 := sgn.2.dropWhile isDigitCh
  let fr : List Char × List Char :=
    match rest1 with
    | c :: t => if c = '.' then (t.takeWhile isDigitCh, t.dropWhile isDigitCh) else ([], rest1)
    | [] => ([], [])
  if intPart.length = 0 ∧ fr.1.length = 0 then none
  else
    let mant : ℚ := (digitsToNat intPart : ℚ) + (digitsToNat fr.1 : ℚ) / (10 : ℚ) ^ fr.1.length
    let ex : ℤ :=
      match fr.2 with
      | c :: t =>
        if c = 'e' ∨ c = 'E' then
          let esgn := parseSignInt t
          let eDigits := esgn.2.takeWhile isDigitCh
          if eDigits.length = 0 then 0 else esgn.1 * (digitsToNat eDigits : ℤ)
        else 0
      | [] => 0
    some ((sgn.1 : ℚ) * mant * (10 : ℚ) ^ ex)

/-- JS `value.replace(",", ".")` with a string pattern: replaces only the
first occurrence of the comma. -/
def replaceFirstCommaDot : List Char → List Char
  | [] => []
  | c :: t => if c = ',' then '.' :: t else c :: replaceFirstCommaDot t

/-- Source `parseCoordinate` (index.tsx:35-38):
`parseFloat(value.replace(",", "."))`, `null` when the result is `NaN`. -/
def parseCoordinate (value : String) : Option ℚ :=
  jsParseFloat (String.mk (replaceFirstCommaDot value.toList))

/-! ### Configuration constants (`src/utils/constants.ts`) -/

/-- Source `WKID` constant. -/
def WKID : ℕ := 102100

/-- Source `RADIUS` constant (spherical Mercator radius). -/
noncomputable def RADIUS : ℝ := 6378137

/-- Source `MAX_CONCURRENT_REQUESTS` constant. -/
def MAX_CONCURRENT_REQUESTS : ℕ := 5

/-- Source `REQ_LIMIT_PER_MIN` constant. -/
def REQ_LIMIT_PER_MIN : ℚ := 60

/-- Source `BATCH_SIZE` constant. -/
def BATCH_SIZE : ℚ := 10

/-- Source `BATCH_DELAY` constant:
`(60 / (REQ_LIMIT_PER_MIN / BATCH_SIZE)) * 1000` milliseconds. -/
def BATCH_DELAY : ℚ := 60 / (REQ_LIMIT_PER_MIN / BATCH_SIZE) * 1000

/-! ### Projection converter (index.tsx:40-72) -/

/-- Source `Wkid` interface. -/
structure SpatialReference where
  wkid : ℕ
deriving DecidableEq

/-- Source `Envelope` interface, with coordinates in `ℝ`. -/
structure Envelope where
  xmin : ℝ
  ymin : ℝ
  xmax : ℝ
  ymax : ℝ
  spatialReference : SpatialReference

/-- Source `calcXValue`: `RADIUS * ((longitude * Math.PI) / 180)`. -/
noncomputable def calcXValue (longitude : ℝ) : ℝ :=
  RADIUS * (longitude * Real.pi / 180)

/-- Source `calcYValue`:
`RADIUS * Math.log(Math.tan(Math.PI / 4 + (latitude * Math.PI) / 180 / 2))`. -/
noncomputable def calcYValue (latitude : ℝ) : ℝ :=
  RADIUS * Real.log (Real.tan (Real.pi / 4 + latitude * Real.pi / 180 / 2))

/-- Source `returnEnvelope`. -/
def returnEnvelope (x y deltaMeters : ℝ) : Envelope :=
  ⟨x - deltaMeters, y - deltaMeters, x + deltaMeters, y + deltaMeters, ⟨WKID⟩⟩

/-- Source `latLonToEnvelope`.  The TS parameter default
`deltaMeters = 1000` is passed explicitly here. -/
noncomputable def latLonToEnvelope (latitude longitude deltaMeters : ℝ) : Envelope :=
  returnEnvelope (calcXValue longitude) (calcYValue latitude) deltaMeters

/-! ### DMS parser (index.tsx:204-225)

The source regex is
`(\d{1,3})°\s*(\d{1,2})'?(\d{1,2}(?:\.\d+)?)?"?([NSEW])/i`, executed
unanchored on the trimmed input.  It is embedded as an explicit
backtracking matcher: every greedy quantifier first tries its longest
take and backtracks to shorter ones, candidate lists are ordered
accordingly, and the input is scanned left to right for the first
position admitting a match — exactly the JS `RegExp.exec` search order.
The optional literals `'?` and `"?` and the gap `\s*` are deterministic
here because an unconsumed apostrophe, quote or space character can
never satisfy the next regex atom (`\d`, `"`, `[NSEW]`). -/

/-- Candidate splits for a greedy `\d{lo,hi}`: all `(taken, rest)` with
`lo ≤ taken.length ≤ hi`, all taken characters digits, longest first. -/
def digitSplits (lo hi : ℕ) (cs : List Char) : List (List Char × List Char) :=
  let run := (cs.takeWhile isDigitCh).length
  let n := min hi run
  if n < lo then []
  else (List.range (n - lo + 1)).map fun k => (cs.take (n - k), cs.drop (n - k))

/-- Candidate splits for the greedy optional fraction `(?:\.\d+)?`,
present (with the longest digit run first) before absent. -/
def fracCandidates (cs : List Char) : List (List Char × List Char) :=
  match cs with
  | c :: rest =>
    if c = '.' then
      let run := (rest.takeWhile isDigitCh).length
      ((List.range run).map fun k => (c :: rest.take (run - k), rest.drop (run - k))) ++
        [([], cs)]
    else [([], cs)]
  | [] => [([], [])]

/-- Candidate captures for the optional group `(\d{1,2}(?:\.\d+)?)?`,
present candidates (greedy order) before the absent one. -/
def secondsCandidates (cs : List Char) : List (Option (List Char) × List Char) :=
  ((digitSplits 1 2 cs).flatMap fun p =>
    (fracCandidates p.2).map fun q => (some (p.1 ++ q.1), q.2)) ++ [(none, cs)]

/-- The four captured groups of the source regex.  `deg`, `minutes` and
`dir` are mandatory atoms of the pattern; only `seconds` is optional. -/
structure DmsGroups where
  deg : List Char
  minutes : List Char
  seconds : Option (List Char)
  dir : Char
deriving DecidableEq

/-- The characters matched by `[NSEW]` under the `/i` flag. -/
def nsewChars : List Char := ['N', 'S', 'E', 'W', 'n', 's', 'e', 'w']

/-- Matcher for the regex suffix after the degree capture: the literal
`°`, the gap `\s*`, minutes, optional apostrophe, optional seconds,
optional quote and the hemisphere letter. -/
def matchTail (g1 : List Char) (r1 : List Char) : Option DmsGroups :=
  match r1 with
  | [] => none
  | c :: r2 =>
    if c = degreeChar then
      let r3 := r2.dropWhile jsIsSpace
      (digitSplits 1 2 r3).findSome? fun p =>
        let r5 : List Char :=
          match p.2 with
          | c2 :: t => if c2 = aposChar then t else p.2
          | [] => p.2
        (secondsCandidates r5).findSome? fun q =>
          let r7 : List Char :=
            match q.2 with
            | c3 :: t => if c3 = quoteChar then t else q.2
            | [] => q.2
          match r7 with
          | d :: _ => if d ∈ nsewChars then some ⟨g1, p.1, q.1, d⟩ else none
          | [] => none
    else none

/-- One match attempt of the source regex at a fixed start position. -/
def matchAt (cs : List Char) : Option DmsGroups :=
  (digitSplits 1 3 cs).findSome? fun p => matchTail p.1 p.2

/-- `RegExp.exec` without anchors: the match at the leftmost position
that admits one. -/
def dmsExec : List Char → Option DmsGroups
  | [] => none
  | c :: t =>
    match matchAt (c :: t) with
    | some g => some g
    | none => dmsExec t

/-- JS `String.trim` on a character list (whitespace from both ends). -/
def listTrim (cs : List Char) : List Char :=
  ((cs.dropWhile jsIsSpace).reverse.dropWhile jsIsSpace).reverse

/-- JS `Math.round`: half-way cases round toward positive infinity. -/
def jsRound (q : ℚ) : ℤ := Int.floor (q + 1 / 2)

/-- Source `parseStringCoordinate` (index.tsx:204-225).  The source
throws (`Formato de coordenada inválido`) when the regex does not match
or any captured group is absent; groups 1, 2 and 4 are mandatory atoms
of the regex, so that check reduces to the seconds group.  The thrown
error is modelled as `none`.  `parseInt(·, 10)` on the all-digit groups
is `digitsToNat`, `parseFloat(match[3])` is `jsParseFloat` (always
defined on a captured seconds group, hence the `getD 0`). -/
def parseStringCoordinate (coordinate : String) : Option ℚ :=
  match dmsExec (listTrim coordinate.toList) with
  | none => none
  | some g =>
    match g.seconds with
    | none => none
    | some secChars =>
      let degrees : ℚ := digitsToNat g.deg
      let minutes : ℚ := digitsToNat g.minutes
      let seconds : ℚ := (jsParseFloat (String.mk secChars)).getD 0
      let decimal := degrees + minutes / 60 + seconds / 3600
      let signed := if g.dir.toUpper = 'S' ∨ g.dir.toUpper = 'W' then -decimal else decimal
      some ((jsRound (signed * 100) : ℚ) / 100)

/-- The string `23°12'30.5"S` (the spec's own DMS example), built from
character codes. -/
def dmsExample : String :=
  String.mk ['2', '3', degreeChar, '1', '2', aposChar, '3', '0', '.', '5', quoteChar, 'S']

/-- The string `23°12'30.5S`: the same reading but with the closing
double quote omitted, so it does not match the spec's stated pattern. -/
def dmsNoQuote : String :=
  String.mk ['2', '3', degreeChar, '1', '2', aposChar, '3', '0', '.', '5', 'S']

/-! Anchored matcher for the pattern the spec claims, used to compare the
source acceptance against the spec's words. -/

/-- Helper for `specDmsMatches`: the maximal leading digit run when its
length lies in `[lo, hi]`. -/
def takeDigits (lo hi : ℕ) (cs : List Char) : Option (List Char × List Char) :=
  let d := cs.takeWhile isDigitCh
  if lo ≤ d.length ∧ d.length ≤ hi then some (d, cs.dropWhile isDigitCh) else none

/-- Helper for `specDmsMatches`: consume one expected character. -/
def expectChar (c : Char) : List Char → Option (List Char)
  | x :: t => if x = c then some t else none
  | [] => none

/-- Helper for `specDmsMatches`: the optional fraction `(.S)?` of the
spec pattern — either absent, or a dot followed by at least one digit. -/
def specFracStep (cs : List Char) : Option (List Char) :=
  match cs with
  | c :: t =>
    if c = '.' then
      match t.takeWhile isDigitCh with
      | [] => none
      | _ => some (t.dropWhile isDigitCh)
    else some cs
  | [] => some cs

/-- Helper for `specDmsMatches`: the final `[NSEW]` letter, at the end of
the input. -/
def specDirStep (cs : List Char) : Option Unit :=
  match cs with
  | [d] => if d ∈ nsewChars then some () else none
  | _ => none

/-- Modelled from the spec: the full anchored pattern
`D{1,3}° M{1,2}' S(.S)?" [NSEW]` (case-insensitive hemisphere letter)
that claim C6 says characterises the accepted inputs — 1–3 degree
digits, `°`, 1–2 minute digits, `'`, 1–2 second digits with an optional
fraction, `"`, one hemisphere letter, end of input.  This is a spec-side
definition, deliberately independent of the source matcher above. -/
def specDmsMatches (s : String) : Bool :=
  (do
    let s1 ← takeDigits 1 3 s.toList
    let r2 ← expectChar degreeChar s1.2
    let s2 ← takeDigits 1 2 r2
    let r4 ← expectChar aposChar s2.2
    let s3 ← takeDigits 1 2 r4
    let r6 ← specFracStep s3.2
    let r7 ← expectChar quoteChar r6
    specDirStep r7).isSome

/-! ### Batch scheduler (index.tsx:126-183)

`runInBatches` is embedded as a queue transformer.  The JS `while` loop
is driven by fuel; `runInBatchesFull` supplies `queueMeasure` of the
initial queue as fuel, which the termination theorem shows is always
sufficient when `batchSize ≥ 1` (`none` is the out-of-fuel sentinel and
is proved unreachable).  Besides the accumulated results the embedding
also returns the dequeue trace — the list of tasks removed from the
queue front, in processing order — which records the attempt history
that several claims speak about. -/

/-- Source `Coordinate` interface. -/
structure Coordinate where
  latitude : String
  longitude : String
deriving DecidableEq

/-- Source `CoordinateWithLayer`: a coordinate together with the
`mapLayerId` currently being tried.  The source field is optional and
read through `?? 0`; the queue only ever stores it set, so it is a plain
`ℕ` here. -/
structure CoordinateWithLayer where
  latitude : String
  longitude : String
  mapLayerId : ℕ
deriving DecidableEq

/-- Forget the layer, keeping the coordinate identity. -/
def CoordinateWithLayer.toCoordinate (c : CoordinateWithLayer) : Coordinate :=
  ⟨c.latitude, c.longitude⟩

/-- Source `Result` interface: at runtime the `coord` field of a result
is the full queue task (the spread in the batch lambda keeps
`mapLayerId`), so it is a `CoordinateWithLayer` here. -/
structure BatchItemResult (F : Type) where
  coord : CoordinateWithLayer
  features : List F
deriving DecidableEq

/-- The batch lambda of `runInBatches` (index.tsx:139-158): parse both
components; on a parse failure return the coordinate with empty
features; otherwise fetch at the task's `mapLayerId`, the oracle already
accounting for the `catch` that turns fetch errors into `[]`. -/
def attemptOutcome {F : Type} (fetch : ℚ → ℚ → ℕ → List F)
    (coord : CoordinateWithLayer) : BatchItemResult F :=
  match parseCoordinate coord.latitude, parseCoordinate coord.longitude with
  | some lat, some lon => ⟨coord, fetch lat lon coord.mapLayerId⟩
  | _, _ => ⟨coord, []⟩

/-- The requeue loop of `runInBatches` (index.tsx:162-175): each batch
result with zero features and `mapLayerId < 5` is reinserted at the
front of the queue with `mapLayerId` incremented; every other result is
appended to the output list. -/
def applyOutcomes {F : Type} :
    List (BatchItemResult F) → List CoordinateWithLayer → List (BatchItemResult F) →
      List CoordinateWithLayer × List (BatchItemResult F)
  | [], queue, results => (queue, results)
  | r :: rest, queue, results =>
    if r.features.length = 0 ∧ r.coord.mapLayerId < 5 then
      applyOutcomes rest (⟨r.coord.latitude, r.coord.longitude, r.coord.mapLayerId + 1⟩ :: queue)
        results
    else
      applyOutcomes rest queue (results ++ [r])

/-- Fuel needed by a task: a task at layer `l ≤ 5` is dequeued at most
`6 - l` more times. -/
def layerWeight (t : CoordinateWithLayer) : ℕ := 6 - t.mapLayerId

/-- Total remaining dequeues of a queue. -/
def queueMeasure (q : List CoordinateWithLayer) : ℕ := (q.map layerWeight).sum

/-- The `while (queue.length > 0)` loop of `runInBatches`
(index.tsx:136-180): dequeue the first `batchSize` tasks, run the batch
lambda on each, apply the requeue loop, recurse.  The awaited
`BATCH_DELAY` timer does not affect the computed value.  Fuel `none`
marks exhaustion and is proved unreachable for the fuel supplied by
`runInBatchesFull`. -/
def runInBatchesAux {F : Type} (fetch : ℚ → ℚ → ℕ → List F) (batchSize : ℕ) :
    ℕ → List CoordinateWithLayer → List (BatchItemResult F) → List CoordinateWithLayer →
      Option (List (BatchItemResult F) × List CoordinateWithLayer)
  | fuel, q, results, trace =>
    match q with
    | [] => some (results, trace)
    | _ :: _ =>
      match fuel with
      | 0 => none
      | fuel' + 1 =>
        let batch := q.take batchSize
        let batchResults := batch.map (attemptOutcome fetch)
        let p := applyOutcomes batchResults (q.drop batchSize) results
        runInBatchesAux fetch batchSize fuel' p.1 p.2 (trace ++ batch)

/-- The queue initialisation of `runInBatches` (index.tsx:131-134):
every input coordinate wrapped with `mapLayerId: 0`, in input order. -/
def initQueue (coords : List Coordinate) : List CoordinateWithLayer :=
  coords.map fun coord => ⟨coord.latitude, coord.longitude, 0⟩

/-- Source `runInBatches`, also exposing the dequeue trace.  The TS
parameter default `batchSize = 10` is passed explicitly by callers
here. -/
def runInBatchesFull {F : Type} (fetch : ℚ → ℚ → ℕ → List F) (coords : List Coordinate)
    (batchSize : ℕ) : Option (List (BatchItemResult F) × List CoordinateWithLayer) :=
  runInBatchesAux fetch batchSize (queueMeasure (initQueue coords)) (initQueue coords) [] []

/-- Source `runInBatches`: the final results list. -/
def runInBatches {F : Type} (fetch : ℚ → ℚ → ℕ → List F) (coords : List Coordinate)
    (batchSize : ℕ) : Option (List (BatchItemResult F)) :=
  (runInBatchesFull fetch coords batchSize).map Prod.fst

/-- The network request a dequeued task gives rise to, if any: present
exactly when both components parse, carrying the parsed pair and the
task's `mapLayerId` (index.tsx:140-149). -/
def fetchCallOf (t : CoordinateWithLayer) : Option (ℚ × ℚ × ℕ) :=
  match parseCoordinate t.latitude, parseCoordinate t.longitude with
  | some lat, some lon => some (lat, lon, t.mapLayerId)
  | _, _ => none

/-- The fetch attempts a dequeue trace gives rise to. -/
def fetchCalls (trace : List CoordinateWithLayer) : List (ℚ × ℚ × ℕ) :=
  trace.filterMap fetchCallOf

/-! ### Claim C8, C9, C10 theorems -/

/-- C8: for every latitude and longitude and the default half-width of
1000 meters, `latLonToEnvelope` is the square envelope
`[x-1000, x+1000] × [y-1000, y+1000]` around the projected point
`x = R·(lon·π/180)`, `y = R·ln(tan(π/4 + lat·π/180/2))` with
`R = 6378137`, so `xmin < xmax`, `ymin < ymax`, the envelope is centered
at `(x, y)`, and the spatial reference wkid is fixed to 102100. -/
theorem latLonToEnvelope_default_square (latitude longitude : ℝ) :
    (latLonToEnvelope latitude longitude 1000).xmin = calcXValue longitude - 1000 ∧
    (latLonToEnvelope latitude longitude 1000).ymin = calcYValue latitude - 1000 ∧
    (latLonToEnvelope latitude longitude 1000).xmax = calcXValue longitude + 1000 ∧
    (latLonToEnvelope latitude longitude 1000).ymax = calcYValue latitude + 1000 ∧
    (latLonToEnvelope latitude longitude 1000).xmin <
      (latLonToEnvelope latitude longitude 1000).xmax ∧
    (latLonToEnvelope latitude longitude 1000).ymin <
      (latLonToEnvelope latitude longitude 1000).ymax ∧
    (latLonToEnvelope latitude longitude 1000).xmin +
        (latLonToEnvelope latitude longitude 1000).xmax = 2 * calcXValue longitude ∧
    (latLonToEnvelope latitude longitude 1000).ymin +
        (latLonToEnvelope latitude longitude 1000).ymax = 2 * calcYValue latitude ∧
    (latLonToEnvelope latitude longitude 1000).spatialReference.wkid = 102100 ∧
    calcXValue longitude = RADIUS * (longitude * Real.pi / 180) ∧
    calcYValue latitude = RADIUS * Real.log (Real.tan (Real.pi / 4 + latitude * Real.pi / 180 / 2)) ∧
    RADIUS = 6378137 := by
  refine ⟨rfl, rfl, rfl, rfl, by simp [latLonToEnvelope, returnEnvelope]; linarith,
    by simp [latLonToEnvelope, returnEnvelope]; linarith, ?_, ?_, rfl, rfl, rfl, rfl⟩
  · simp [latLonToEnvelope, returnEnvelope]; ring
  · simp [latLonToEnvelope, returnEnvelope]; ring

/-- C8 witness: the theorem instantiated at latitude 0, longitude 0. -/
theorem latLonToEnvelope_default_square_witness :
    (latLonToEnvelope 0 0 1000).xmin < (latLonToEnvelope 0 0 1000).xmax :=
  (latLonToEnvelope_default_square 0 0).2.2.2.2.1

/-- C9: `parseCoordinate` replaces a comma decimal separator with a dot
and then parses with JS `parseFloat` semantics, returning `none` (not an
error) on non-numeric input; in particular `parseCoordinate "-2,21"`
evaluates to `-2.21` and `parseCoordinate "abc"` to `none`. -/
theorem parseCoordinate_comma_and_null :
    (∀ value : String,
      parseCoordinate value = jsParseFloat (String.mk (replaceFirstCommaDot value.toList))) ∧
    parseCoordinate "-2,21" = some (-(221 / 100 : ℚ)) ∧
    parseCoordinate "abc" = none := by
  refine ⟨fun value => rfl, ?_, by decide⟩
  simp +decide [parseCoordinate, jsParseFloat, replaceFirstCommaDot, parseSignInt, isDigitCh,
    jsIsSpace, digitsToNat, List.takeWhile, List.dropWhile]
  norm_num

/-- C9 witness: the first conjunct instantiated at the concrete
input `"-2,21"`. -/
theorem parseCoordinate_comma_and_null_witness :
    parseCoordinate "-2,21" =
      jsParseFloat (String.mk (replaceFirstCommaDot ("-2,21" : String).toList)) :=
  parseCoordinate_comma_and_null.1 "-2,21"

/-- C10: `BATCH_DELAY` is `(60 / (REQ_LIMIT_PER_MIN / BATCH_SIZE)) * 1000`
milliseconds, which with the configured `REQ_LIMIT_PER_MIN = 60` and
`BATCH_SIZE = 10` evaluates to exactly 10000 ms. -/
theorem BATCH_DELAY_value :
    BATCH_DELAY = 60 / (REQ_LIMIT_PER_MIN / BATCH_SIZE) * 1000 ∧
    REQ_LIMIT_PER_MIN = 60 ∧ BATCH_SIZE = 10 ∧ BATCH_DELAY = 10000 := by
  refine ⟨rfl, rfl, rfl, by norm_num [BATCH_DELAY, REQ_LIMIT_PER_MIN, BATCH_SIZE]⟩

theorem attemptOutcome_coord {F : Type} (fetch : ℚ → ℚ → ℕ → List F) (c : CoordinateWithLayer) :
    (attemptOutcome fetch c).coord = c := by
  unfold attemptOutcome
  cases parseCoordinate c.latitude <;> cases parseCoordinate c.longitude <;> rfl

theorem queueMeasure_cons (t : CoordinateWithLayer) (q : List CoordinateWithLayer) :
    queueMeasure (t :: q) = layerWeight t + queueMeasure q := by
  simp [queueMeasure]

theorem queueMeasure_append (q₁ q₂ : List CoordinateWithLayer) :
    queueMeasure (q₁ ++ q₂) = queueMeasure q₁ + queueMeasure q₂ := by
  simp [queueMeasure]

theorem applyOutcomes_layers {F : Type} :
    ∀ (br : List (BatchItemResult F)) (queue : List CoordinateWithLayer)
      (results : List (BatchItemResult F)),
      (∀ r ∈ br, r.coord.mapLayerId ≤ 5) →
      (∀ t ∈ queue, t.mapLayerId ≤ 5) →
      ∀ t ∈ (applyOutcomes br queue results).1, t.mapLayerId ≤ 5 := by
  intro br
  induction br with
  | nil => intro queue results _ hq; simpa [applyOutcomes] using hq
  | cons r rest ih =>
    intro queue results hbr hq
    rw [applyOutcomes]
    split
    case isTrue h =>
      refine ih _ _ (fun x hx => hbr x (List.mem_cons_of_mem _ hx)) ?_
      intro t ht
      rcases List.mem_cons.mp ht with h1 | h1
      · subst h1; simp; omega
      · exact hq t h1
    case isFalse h =>
      exact ih _ _ (fun x hx => hbr x (List.mem_cons_of_mem _ hx)) hq

theorem applyOutcomes_measure {F : Type} :
    ∀ (br : List (BatchItemResult F)) (queue : List CoordinateWithLayer)
      (results : List (BatchItemResult F)),
      (∀ r ∈ br, r.coord.mapLayerId ≤ 5) →
      queueMeasure (applyOutcomes br queue results).1 + br.length ≤
        queueMeasure queue + (br.map fun r => layerWeight r.coord).sum := by
  intro br
  induction br with
  | nil => intro queue results _; simp [applyOutcomes]
  | cons r rest ih =>
    intro queue results hbr
    have hr : r.coord.mapLayerId ≤ 5 := hbr r (List.mem_cons_self _ _)
    rw [applyOutcomes]
    split
    case isTrue h =>
      have := ih (⟨r.coord.latitude, r.coord.longitude, r.coord.mapLayerId + 1⟩ :: queue) results
        (fun x hx => hbr x (List.mem_cons_of_mem _ hx))
      rw [queueMeasure_cons] at this
      simp only [List.length_cons, List.map_cons, List.sum_cons]
      have hw : layerWeight (⟨r.coord.latitude, r.coord.longitude, r.coord.mapLayerId + 1⟩ :
          CoordinateWithLayer) = 6 - (r.coord.mapLayerId + 1) := rfl
      have hw2 : layerWeight r.coord = 6 - r.coord.mapLayerId := rfl
      omega
    case isFalse h =>
      have := ih queue (results ++ [r]) (fun x hx => hbr x (List.mem_cons_of_mem _ hx))
      simp only [List.length_cons, List.map_cons, List.sum_cons]
      have hw2 : layerWeight r.coord = 6 - r.coord.mapLayerId := rfl
      omega

theorem applyOutcomes_coords {F : Type} :
    ∀ (br : List (BatchItemResult F)) (queue : List CoordinateWithLayer)
      (results : List (BatchItemResult F)),
      (((applyOutcomes br queue results).1.map CoordinateWithLayer.toCoordinate :
          List Coordinate) : Multiset Coordinate) +
        ((applyOutcomes br queue results).2.map fun r => r.coord.toCoordinate) =
      ((queue.map CoordinateWithLayer.toCoordinate : List Coordinate) : Multiset Coordinate) +
        (br.map fun r => r.coord.toCoordinate) + (results.map fun r => r.coord.toCoordinate) := by
  intro br
  induction br with
  | nil => intro queue results; simp [applyOutcomes]
  | cons r rest ih =>
    intro queue results
    rw [applyOutcomes]
    split
    case isTrue h =>
      have := ih (⟨r.coord.latitude, r.coord.longitude, r.coord.mapLayerId + 1⟩ :: queue) results
      rw [this]
      have hc : (⟨r.coord.latitude, r.coord.longitude, r.coord.mapLayerId + 1⟩ :
          CoordinateWithLayer).toCoordinate = r.coord.toCoordinate := rfl
      simp [hc]
      exact List.perm_middle.symm
    case isFalse h =>
      have := ih queue (results ++ [r])
      rw [this]
      simp
      refine List.Perm.append_left _ ?_
      rw [← List.append_assoc]
      exact List.perm_append_singleton _ _

theorem initQueue_layers (coords : List Coordinate) :
    ∀ t ∈ initQueue coords, t.mapLayerId ≤ 5 := by
  intro t ht
  simp [initQueue] at ht
  obtain ⟨c, _, rfl⟩ := ht
  simp

theorem initQueue_toCoordinate (coords : List Coordinate) :
    (initQueue coords).map CoordinateWithLayer.toCoordinate = coords := by
  rw [initQueue, List.map_map]
  exact List.map_id coords

theorem queueMeasure_initQueue (coords : List Coordinate) :
    queueMeasure (initQueue coords) = 6 * coords.length := by
  induction coords with
  | nil => rfl
  | cons c rest ih =>
    simp [initQueue, queueMeasure, layerWeight] at ih ⊢
    omega

theorem runInBatchesAux_spec {F : Type} (fetch : ℚ → ℚ → ℕ → List F) (batchSize : ℕ)
    (hbs : 1 ≤ batchSize) :
    ∀ (fuel : ℕ) (q : List CoordinateWithLayer) (results : List (BatchItemResult F))
      (trace : List CoordinateWithLayer),
      (∀ t ∈ q, t.mapLayerId ≤ 5) →
      queueMeasure q ≤ fuel →
      ∃ res tr,
        runInBatchesAux fetch batchSize fuel q results trace = some (res, tr) ∧
        ((res.map fun r => r.coord.toCoordinate : List Coordinate) : Multiset Coordinate) =
          ((q.map CoordinateWithLayer.toCoordinate : List Coordinate) : Multiset Coordinate) +
            (results.map fun r => r.coord.toCoordinate) ∧
        tr.length ≤ trace.length + queueMeasure q ∧
        (∀ t ∈ tr, t ∈ trace ∨ t.mapLayerId ≤ 5) := by
  intro fuel
  induction fuel with
  | zero =>
    intro q results trace hq hm
    cases q with
    | nil =>
      refine ⟨results, trace, by rw [runInBatchesAux], by simp, by simp [queueMeasure], ?_⟩
      intro t ht; exact Or.inl ht
    | cons t q' =>
      exfalso
      have h1 : 1 ≤ layerWeight t := by
        have := hq t (List.mem_cons_self _ _)
        simp [layerWeight]; omega
      rw [queueMeasure_cons] at hm
      omega
  | succ fuel' ih =>
    intro q results trace hq hm
    cases q with
    | nil =>
      refine ⟨results, trace, by rw [runInBatchesAux], by simp, by simp [queueMeasure], ?_⟩
      intro t ht; exact Or.inl ht
    | cons t q' =>
      have hbatch_split : (t :: q').take batchSize ++ (t :: q').drop batchSize = t :: q' :=
        List.take_append_drop _ _
      have hbatch_ne : (t :: q').take batchSize ≠ [] := by
        obtain ⟨bs', rfl⟩ : ∃ bs', batchSize = bs' + 1 := ⟨batchSize - 1, by omega⟩
        simp
      have hbatch_sub : ∀ x ∈ (t :: q').take batchSize, x ∈ t :: q' :=
        fun x hx => List.take_subset _ _ hx
      have hdrop_sub : ∀ x ∈ (t :: q').drop batchSize, x ∈ t :: q' :=
        fun x hx => List.drop_subset _ _ hx
      have hμsplit : queueMeasure ((t :: q').take batchSize) +
          queueMeasure ((t :: q').drop batchSize) = queueMeasure (t :: q') := by
        rw [← queueMeasure_append, hbatch_split]
      have hbrsum : ((((t :: q').take batchSize).map (attemptOutcome fetch)).map
          fun r => layerWeight r.coord).sum = queueMeasure ((t :: q').take batchSize) := by
        rw [List.map_map]
        have h1 : ((t :: q').take batchSize).map
            ((fun r => layerWeight r.coord) ∘ attemptOutcome fetch) =
            ((t :: q').take batchSize).map layerWeight :=
          List.map_congr_left fun x _ => by
            simp [Function.comp, attemptOutcome_coord]
        rw [h1]; rfl
      have hbr_layers : ∀ r ∈ ((t :: q').take batchSize).map (attemptOutcome fetch),
          r.coord.mapLayerId ≤ 5 := by
        intro r hr
        obtain ⟨x, hx, rfl⟩ := List.mem_map.mp hr
        rw [attemptOutcome_coord]
        exact hq x (hbatch_sub x hx)
      have hmeas := applyOutcomes_measure (((t :: q').take batchSize).map (attemptOutcome fetch))
        ((t :: q').drop batchSize) results hbr_layers
      rw [hbrsum] at hmeas
      have hblen : (((t :: q').take batchSize).map (attemptOutcome fetch)).length =
          ((t :: q').take batchSize).length := List.length_map _ _
      have hblen1 : 1 ≤ ((t :: q').take batchSize).length := by
        cases hcb : (t :: q').take batchSize with
        | nil => exact absurd hcb hbatch_ne
        | cons a l => simp
      have hlay := applyOutcomes_layers (((t :: q').take batchSize).map (attemptOutcome fetch))
        ((t :: q').drop batchSize) results hbr_layers
        (fun x hx => hq x (hdrop_sub x hx))
      have hμnew : queueMeasure (applyOutcomes
          (((t :: q').take batchSize).map (attemptOutcome fetch))
          ((t :: q').drop batchSize) results).1 ≤ fuel' := by omega
      obtain ⟨res, tr, hrun, hmul, htr, htrmem⟩ := ih
        (applyOutcomes (((t :: q').take batchSize).map (attemptOutcome fetch))
          ((t :: q').drop batchSize) results).1
        (applyOutcomes (((t :: q').take batchSize).map (attemptOutcome fetch))
          ((t :: q').drop batchSize) results).2
        (trace ++ (t :: q').take batchSize) hlay hμnew
      refine ⟨res, tr, ?_, ?_, ?_, ?_⟩
      · rw [runInBatchesAux]
        simpa using hrun
      · rw [hmul, applyOutcomes_coords]
        have h2 : (((((t :: q').take batchSize).map (attemptOutcome fetch)).map
            fun r => r.coord.toCoordinate : List Coordinate) : Multiset Coordinate) =
            ((((t :: q').take batchSize).map CoordinateWithLayer.toCoordinate :
              List Coordinate) : Multiset Coordinate) := by
          congr 1
          rw [List.map_map]
          exact List.map_congr_left fun x _ => by
            simp [Function.comp, attemptOutcome_coord]
        rw [h2]
        have hqm : (((t :: q').map CoordinateWithLayer.toCoordinate : List Coordinate) :
            Multiset Coordinate) =
            ((((t :: q').take batchSize).map CoordinateWithLayer.toCoordinate :
              List Coordinate) : Multiset Coordinate) +
            ((((t :: q').drop batchSize).map CoordinateWithLayer.toCoordinate :
              List Coordinate) : Multiset Coordinate) := by
          conv_lhs => rw [← hbatch_split]
          simp [List.map_append]
        rw [hqm]
        abel
      · rw [List.length_append] at htr
        omega
      · intro x hx
        rcases htrmem x hx with h1 | h1
        · rcases List.mem_append.mp h1 with h2 | h2
          · exact Or.inl h2
          · exact Or.inr (hq x (hbatch_sub x h2))
        · exact Or.inr h1

theorem attemptOutcome_eta {F : Type} (fetch : ℚ → ℚ → ℕ → List F) (c : CoordinateWithLayer) :
    attemptOutcome fetch c = ⟨c, (attemptOutcome fetch c).features⟩ := by
  have h := attemptOutcome_coord fetch c
  calc attemptOutcome fetch c
      = ⟨(attemptOutcome fetch c).coord, (attemptOutcome fetch c).features⟩ := rfl
    _ = ⟨c, (attemptOutcome fetch c).features⟩ := by rw [h]

theorem runInBatchesAux_singleton_step {F : Type} (fetch : ℚ → ℚ → ℕ → List F)
    (batchSize : ℕ) (hbs : 1 ≤ batchSize) (t : CoordinateWithLayer) (fuel : ℕ)
    (results : List (BatchItemResult F)) (trace : List CoordinateWithLayer) :
    runInBatchesAux fetch batchSize (fuel + 1) [t] results trace =
      if (attemptOutcome fetch t).features.length = 0 ∧ t.mapLayerId < 5 then
        runInBatchesAux fetch batchSize fuel
          [⟨t.latitude, t.longitude, t.mapLayerId + 1⟩] results (trace ++ [t])
      else
        runInBatchesAux fetch batchSize fuel [] (results ++ [attemptOutcome fetch t])
          (trace ++ [t]) := by
  obtain ⟨bs', rfl⟩ : ∃ bs', batchSize = bs' + 1 := ⟨batchSize - 1, by omega⟩
  conv_lhs => rw [runInBatchesAux.eq_def]
  simp only [List.take_succ_cons, List.take_nil, List.drop_succ_cons, List.drop_nil,
    List.map_cons, List.map_nil]
  simp only [applyOutcomes]
  rw [attemptOutcome_coord]
  split
  case isTrue h => rfl
  case isFalse h =>
    rw [runInBatchesAux]

theorem runInBatches_single_empty {F : Type} (fetch : ℚ → ℚ → ℕ → List F) (batchSize : ℕ)
    (hbs : 1 ≤ batchSize) (la lo : String)
    (hempty : ∀ l : ℕ, (attemptOutcome fetch ⟨la, lo, l⟩).features = []) :
    runInBatchesFull fetch [⟨la, lo⟩] batchSize =
      some ([⟨⟨la, lo, 5⟩, []⟩],
        [⟨la, lo, 0⟩, ⟨la, lo, 1⟩, ⟨la, lo, 2⟩, ⟨la, lo, 3⟩, ⟨la, lo, 4⟩, ⟨la, lo, 5⟩]) := by
  have hμ : queueMeasure (initQueue [⟨la, lo⟩]) = 6 := by
    simp [queueMeasure, initQueue, layerWeight]
  rw [runInBatchesFull, hμ]
  have hinit : initQueue [⟨la, lo⟩] = [⟨la, lo, 0⟩] := rfl
  rw [hinit]
  have hstep : ∀ l : ℕ, l < 5 → ∀ fuel results trace,
      runInBatchesAux fetch batchSize (fuel + 1) [⟨la, lo, l⟩] results trace =
        runInBatchesAux fetch batchSize fuel [⟨la, lo, l + 1⟩] results
          (trace ++ [⟨la, lo, l⟩]) := by
    intro l hl fuel results trace
    rw [runInBatchesAux_singleton_step fetch batchSize hbs]
    rw [if_pos ⟨by rw [hempty l]; rfl, hl⟩]
  rw [show (6 : ℕ) = 5 + 1 from rfl, hstep 0 (by omega)]
  rw [show (5 : ℕ) = 4 + 1 from rfl, hstep 1 (by omega)]
  rw [show (4 : ℕ) = 3 + 1 from rfl, hstep 2 (by omega)]
  rw [show (3 : ℕ) = 2 + 1 from rfl, hstep 3 (by omega)]
  rw [show (2 : ℕ) = 1 + 1 from rfl, hstep 4 (by omega)]
  rw [show (1 : ℕ) = 0 + 1 from rfl, runInBatchesAux_singleton_step fetch batchSize hbs]
  rw [if_neg (fun h => Nat.lt_irrefl 5 h.2)]
  rw [runInBatchesAux]
  have h5 : attemptOutcome fetch ⟨la, lo, 5⟩ = ⟨⟨la, lo, 5⟩, []⟩ := by
    rw [attemptOutcome_eta, hempty 5]
  rw [h5]
  rfl

theorem attemptOutcome_parsed {F : Type} (fetch : ℚ → ℚ → ℕ → List F) (c : CoordinateWithLayer)
    (latq lonq : ℚ) (h1 : parseCoordinate c.latitude = some latq)
    (h2 : parseCoordinate c.longitude = some lonq) :
    attemptOutcome fetch c = ⟨c, fetch latq lonq c.mapLayerId⟩ := by
  unfold attemptOutcome
  rw [h1, h2]

theorem attemptOutcome_parseFail {F : Type} (fetch : ℚ → ℚ → ℕ → List F)
    (c : CoordinateWithLayer)
    (h : parseCoordinate c.latitude = none ∨ parseCoordinate c.longitude = none) :
    attemptOutcome fetch c = ⟨c, []⟩ := by
  unfold attemptOutcome
  rcases h with h | h
  · rw [h]
  · rw [h]
    cases parseCoordinate c.latitude <;> rfl

theorem attemptOutcome_constEmpty {F : Type} (c : CoordinateWithLayer) :
    (attemptOutcome (fun _ _ _ => ([] : List F)) c).features = [] := by
  unfold attemptOutcome
  cases parseCoordinate c.latitude <;> cases parseCoordinate c.longitude <;> rfl

theorem fetchCallOf_parseFail (t : CoordinateWithLayer)
    (h : parseCoordinate t.latitude = none ∨ parseCoordinate t.longitude = none) :
    fetchCallOf t = none := by
  unfold fetchCallOf
  rcases h with h | h
  · rw [h]
  · rw [h]
    cases parseCoordinate t.latitude <;> rfl

theorem runInBatches_single_successAt2 {F : Type} (fetch : ℚ → ℚ → ℕ → List F)
    (batchSize : ℕ) (hbs : 1 ≤ batchSize) (la lo : String) (latq lonq : ℚ) (fs : List F)
    (hla : parseCoordinate la = some latq) (hlo : parseCoordinate lo = some lonq)
    (h0 : fetch latq lonq 0 = []) (h1 : fetch latq lonq 1 = []) (h2 : fetch latq lonq 2 = fs)
    (hne : fs ≠ []) :
    runInBatchesFull fetch [⟨la, lo⟩] batchSize =
      some ([⟨⟨la, lo, 2⟩, fs⟩], [⟨la, lo, 0⟩, ⟨la, lo, 1⟩, ⟨la, lo, 2⟩]) := by
  have hatt : ∀ l : ℕ, attemptOutcome fetch ⟨la, lo, l⟩ = ⟨⟨la, lo, l⟩, fetch latq lonq l⟩ :=
    fun l => attemptOutcome_parsed fetch ⟨la, lo, l⟩ latq lonq hla hlo
  have hμ : queueMeasure (initQueue [⟨la, lo⟩]) = 6 := by
    simp [queueMeasure, initQueue, layerWeight]
  rw [runInBatchesFull, hμ, show initQueue [⟨la, lo⟩] = [⟨la, lo, 0⟩] from rfl]
  rw [show (6 : ℕ) = 5 + 1 from rfl, runInBatchesAux_singleton_step fetch batchSize hbs]
  rw [if_pos ⟨by rw [hatt 0]; simp [h0], by show (0:ℕ) < 5; omega⟩]
  rw [show (5 : ℕ) = 4 + 1 from rfl, runInBatchesAux_singleton_step fetch batchSize hbs]
  rw [if_pos ⟨by rw [hatt 1]; simp [h1], by show (1:ℕ) < 5; omega⟩]
  rw [show (4 : ℕ) = 3 + 1 from rfl, runInBatchesAux_singleton_step fetch batchSize hbs]
  rw [if_neg (fun hcontra => hne (by
    have := hcontra.1
    rw [hatt 2] at this
    simpa [h2] using this))]
  rw [runInBatchesAux]
  rw [hatt 2, h2]
  rfl

/-- C1 (amended): the layer-attempt index of every task dequeued by the
scheduler stays in the range `[0,6)` (it does reach 5, so the spec's
bound `[0,5)` is off by one), and a coordinate whose attempt at every
layer yields zero features is dequeued exactly 6 times, at monotonically
non-decreasing layers 0,1,2,3,4,5, receiving a terminal empty-features
result after the 6th attempt and never a 7th. -/
theorem scheduler_layer_attempt_range {F : Type} (fetch : ℚ → ℚ → ℕ → List F) :
    (∀ (coords : List Coordinate) (batchSize : ℕ), 1 ≤ batchSize →
      ∃ res tr, runInBatchesFull fetch coords batchSize = some (res, tr) ∧
        ∀ t ∈ tr, t.mapLayerId < 6) ∧
    (∀ (la lo : String) (batchSize : ℕ), 1 ≤ batchSize →
      (∀ l : ℕ, (attemptOutcome fetch ⟨la, lo, l⟩).features = []) →
      runInBatchesFull fetch [⟨la, lo⟩] batchSize =
        some ([⟨⟨la, lo, 5⟩, []⟩],
          [⟨la, lo, 0⟩, ⟨la, lo, 1⟩, ⟨la, lo, 2⟩, ⟨la, lo, 3⟩, ⟨la, lo, 4⟩, ⟨la, lo, 5⟩]) ∧
      List.Chain' (· ≤ ·)
        ([⟨la, lo, 0⟩, ⟨la, lo, 1⟩, ⟨la, lo, 2⟩, ⟨la, lo, 3⟩, ⟨la, lo, 4⟩,
          (⟨la, lo, 5⟩ : CoordinateWithLayer)].map CoordinateWithLayer.mapLayerId)) := by
  constructor
  · intro coords batchSize hbs
    obtain ⟨res, tr, hrun, _, _, htrmem⟩ := runInBatchesAux_spec fetch batchSize hbs
      (queueMeasure (initQueue coords)) (initQueue coords) [] []
      (initQueue_layers coords) le_rfl
    refine ⟨res, tr, hrun, fun t ht => ?_⟩
    rcases htrmem t ht with h | h
    · simp at h
    · omega
  · intro la lo batchSize hbs hempty
    refine ⟨runInBatches_single_empty fetch batchSize hbs la lo hempty, ?_⟩
    simp [List.chain'_cons]

/-- C1 witness: the amended lifecycle at the concrete coordinate
`("1", "2")`, an always-empty fetch and batch size 1. -/
theorem scheduler_layer_attempt_range_witness :
    (1 ≤ 1) ∧
    runInBatchesFull (fun _ _ _ => ([] : List Unit)) [⟨"1", "2"⟩] 1 =
      some ([⟨⟨"1", "2", 5⟩, []⟩],
        [⟨"1", "2", 0⟩, ⟨"1", "2", 1⟩, ⟨"1", "2", 2⟩, ⟨"1", "2", 3⟩, ⟨"1", "2", 4⟩,
          ⟨"1", "2", 5⟩]) :=
  ⟨le_rfl,
    ((scheduler_layer_attempt_range (fun _ _ _ => ([] : List Unit))).2 "1" "2" 1 le_rfl
      (fun _ => attemptOutcome_constEmpty _)).1⟩

/-- C1 counterexample: with one coordinate whose every attempt is empty
and batch size 1, the scheduler dequeues the task six times, the sixth
time at layer 5 — refuting the claimed bound `[0,5)` and the claimed
total of exactly 5 attempts. -/
theorem scheduler_layer_attempt_range_counterexample :
    runInBatchesFull (fun _ _ _ => ([] : List Unit)) [⟨"1", "2"⟩] 1 =
      some ([⟨⟨"1", "2", 5⟩, []⟩],
        [⟨"1", "2", 0⟩, ⟨"1", "2", 1⟩, ⟨"1", "2", 2⟩, ⟨"1", "2", 3⟩, ⟨"1", "2", 4⟩,
          ⟨"1", "2", 5⟩]) ∧
    ¬ ([⟨"1", "2", 0⟩, ⟨"1", "2", 1⟩, ⟨"1", "2", 2⟩, ⟨"1", "2", 3⟩, ⟨"1", "2", 4⟩,
        (⟨"1", "2", 5⟩ : CoordinateWithLayer)].length = 5) ∧
    ¬ ((⟨"1", "2", 5⟩ : CoordinateWithLayer).mapLayerId < 5) := by
  refine ⟨by decide, by decide, by decide⟩

/-- C2 (amended): a coordinate whose latitude or longitude fails the
decimal parse yields empty features on every dequeue without any network
fetch, but it is requeued like any other zero-feature outcome: it is
retried with `mapLayerId` incremented at layers 1,2,3,4,5 and only its
6th dequeue (at `mapLayerId = 5`) produces the terminal empty-features
result; no fetch call ever happens for it. -/
theorem parse_failure_requeued {F : Type} (fetch : ℚ → ℚ → ℕ → List F) (la lo : String)
    (batchSize : ℕ) (hbs : 1 ≤ batchSize)
    (hfail : parseCoordinate la = none ∨ parseCoordinate lo = none) :
    runInBatchesFull fetch [⟨la, lo⟩] batchSize =
      some ([⟨⟨la, lo, 5⟩, []⟩],
        [⟨la, lo, 0⟩, ⟨la, lo, 1⟩, ⟨la, lo, 2⟩, ⟨la, lo, 3⟩, ⟨la, lo, 4⟩, ⟨la, lo, 5⟩]) ∧
    fetchCalls [⟨la, lo, 0⟩, ⟨la, lo, 1⟩, ⟨la, lo, 2⟩, ⟨la, lo, 3⟩, ⟨la, lo, 4⟩,
      ⟨la, lo, 5⟩] = [] := by
  have hempty : ∀ l : ℕ, (attemptOutcome fetch ⟨la, lo, l⟩).features = [] := fun l => by
    rw [attemptOutcome_parseFail fetch _ hfail]
  refine ⟨runInBatches_single_empty fetch batchSize hbs la lo hempty, ?_⟩
  have hcall : ∀ l : ℕ, fetchCallOf ⟨la, lo, l⟩ = none :=
    fun l => fetchCallOf_parseFail ⟨la, lo, l⟩ hfail
  simp [fetchCalls, List.filterMap_cons, hcall]

/-- C2 witness: the amended lifecycle at the concrete malformed
coordinate `("abc", "1")` with batch size 1. -/
theorem parse_failure_requeued_witness :
    (parseCoordinate "abc" = none) ∧
    runInBatchesFull (fun _ _ _ => ([] : List Unit)) [⟨"abc", "1"⟩] 1 =
      some ([⟨⟨"abc", "1", 5⟩, []⟩],
        [⟨"abc", "1", 0⟩, ⟨"abc", "1", 1⟩, ⟨"abc", "1", 2⟩, ⟨"abc", "1", 3⟩, ⟨"abc", "1", 4⟩,
          ⟨"abc", "1", 5⟩]) :=
  ⟨by decide,
    (parse_failure_requeued (fun _ _ _ => ([] : List Unit)) "abc" "1" 1 le_rfl
      (Or.inl (by decide))).1⟩

/-- C2 counterexample: the coordinate `("abc", "-47.43")` fails the
latitude parse, yet the scheduler requeues it five times (dequeues at
layers 0 through 5) instead of emitting a terminal result on the first
dequeue: the dequeue trace is not the single-attempt trace the claim
demands. -/
theorem parse_failure_requeued_counterexample :
    runInBatchesFull (fun _ _ _ => [()]) [⟨"abc", "-47.43"⟩] 1 =
      some ([⟨⟨"abc", "-47.43", 5⟩, []⟩],
        [⟨"abc", "-47.43", 0⟩, ⟨"abc", "-47.43", 1⟩, ⟨"abc", "-47.43", 2⟩,
          ⟨"abc", "-47.43", 3⟩, ⟨"abc", "-47.43", 4⟩, ⟨"abc", "-47.43", 5⟩]) ∧
    ¬ ([⟨"abc", "-47.43", 0⟩, ⟨"abc", "-47.43", 1⟩, ⟨"abc", "-47.43", 2⟩,
        ⟨"abc", "-47.43", 3⟩, ⟨"abc", "-47.43", 4⟩,
        (⟨"abc", "-47.43", 5⟩ : CoordinateWithLayer)] =
      [⟨"abc", "-47.43", 0⟩]) := by
  refine ⟨by decide, by decide⟩

/-- C3: for every input list of N coordinates, `runInBatches` returns a
list of exactly N results whose coordinates form, as a multiset keyed by
coordinate identity, exactly the input multiset — regardless of parse
failures or fetch outcomes (the fetch oracle is arbitrary). -/
theorem runInBatches_cardinality {F : Type} (fetch : ℚ → ℚ → ℕ → List F)
    (coords : List Coordinate) (batchSize : ℕ) (hbs : 1 ≤ batchSize) :
    ∃ res, runInBatches fetch coords batchSize = some res ∧
      res.length = coords.length ∧
      ((res.map fun r => r.coord.toCoordinate : List Coordinate) : Multiset Coordinate) =
        (coords : Multiset Coordinate) := by
  obtain ⟨res, tr, hrun, hmul, _, _⟩ := runInBatchesAux_spec fetch batchSize hbs
    (queueMeasure (initQueue coords)) (initQueue coords) [] []
    (initQueue_layers coords) le_rfl
  have hmul' : ((res.map fun r => r.coord.toCoordinate : List Coordinate) :
      Multiset Coordinate) = (coords : Multiset Coordinate) := by
    rw [hmul, initQueue_toCoordinate]
    simp
  refine ⟨res, ?_, ?_, hmul'⟩
  · rw [runInBatches, runInBatchesFull, hrun]
    rfl
  · have := congrArg Multiset.card hmul'
    simpa using this

/-- C3 witness: the theorem at one concrete coordinate, an always-empty
fetch and batch size 1. -/
theorem runInBatches_cardinality_witness :
    (1 ≤ 1) ∧
    ∃ res, runInBatches (fun _ _ _ => ([] : List Unit)) [⟨"1", "2"⟩] 1 = some res ∧
      res.length = [(⟨"1", "2"⟩ : Coordinate)].length ∧
      ((res.map fun r => r.coord.toCoordinate : List Coordinate) : Multiset Coordinate) =
        ([(⟨"1", "2"⟩ : Coordinate)] : Multiset Coordinate) :=
  ⟨le_rfl, runInBatches_cardinality (fun _ _ _ => ([] : List Unit)) [⟨"1", "2"⟩] 1 le_rfl⟩

/-- C4: a batch outcome with a non-empty features list is appended to
the output list as a terminal result, exactly as produced, and is not
requeued; in particular a single coordinate whose fetch is empty at
layers 0 and 1 and returns `fs ≠ []` at layer 2 terminates with exactly
`fs` at layer 2 after exactly three dequeues and no further attempt. -/
theorem nonempty_features_terminal {F : Type} :
    (∀ (r : BatchItemResult F) (rest : List (BatchItemResult F))
      (queue : List CoordinateWithLayer) (results : List (BatchItemResult F)),
      ¬ r.features.length = 0 →
      applyOutcomes (r :: rest) queue results = applyOutcomes rest queue (results ++ [r])) ∧
    (∀ (fetch : ℚ → ℚ → ℕ → List F) (la lo : String) (latq lonq : ℚ) (batchSize : ℕ)
      (fs : List F), 1 ≤ batchSize →
      parseCoordinate la = some latq → parseCoordinate lo = some lonq →
      fetch latq lonq 0 = [] → fetch latq lonq 1 = [] → fetch latq lonq 2 = fs → fs ≠ [] →
      runInBatchesFull fetch [⟨la, lo⟩] batchSize =
        some ([⟨⟨la, lo, 2⟩, fs⟩], [⟨la, lo, 0⟩, ⟨la, lo, 1⟩, ⟨la, lo, 2⟩])) := by
  constructor
  · intro r rest queue results hne
    rw [applyOutcomes, if_neg (fun h => hne h.1)]
  · intro fetch la lo latq lonq batchSize fs hbs hla hlo h0 h1 h2 hne
    exact runInBatches_single_successAt2 fetch batchSize hbs la lo latq lonq fs
      hla hlo h0 h1 h2 hne

/-- C4 witness: the lifecycle part at the concrete coordinate
`("1", "2")` and a fetch that succeeds exactly at layer 2. -/
theorem nonempty_features_terminal_witness :
    (parseCoordinate "1" = some 1) ∧ (parseCoordinate "2" = some 2) ∧
    runInBatchesFull (fun _ _ l => if l = 2 then [()] else []) [⟨"1", "2"⟩] 1 =
      some ([⟨⟨"1", "2", 2⟩, [()]⟩], [⟨"1", "2", 0⟩, ⟨"1", "2", 1⟩, ⟨"1", "2", 2⟩]) := by
  have hla : parseCoordinate "1" = some 1 := by
    simp +decide [parseCoordinate, jsParseFloat, replaceFirstCommaDot, parseSignInt, isDigitCh,
      jsIsSpace, digitsToNat, List.takeWhile, List.dropWhile]
  have hlo : parseCoordinate "2" = some 2 := by
    simp +decide [parseCoordinate, jsParseFloat, replaceFirstCommaDot, parseSignInt, isDigitCh,
      jsIsSpace, digitsToNat, List.takeWhile, List.dropWhile]
  refine ⟨hla, hlo, (nonempty_features_terminal.2 (fun _ _ l => if l = 2 then [()] else [])
    "1" "2" 1 2 1 [()] le_rfl hla hlo rfl rfl rfl (by decide))⟩

/-- C5: for every finite coordinate list and positive batch size the
scheduler terminates: the fuel supplied by `runInBatchesFull` is never
exhausted, the total number of dequeues is at most 6 per input
coordinate, every dequeued task sits at a layer at most 5 (so each
lineage is dequeued at most 6 times), and `runInBatches` returns a
value. -/
theorem runInBatches_terminates {F : Type} (fetch : ℚ → ℚ → ℕ → List F)
    (coords : List Coordinate) (batchSize : ℕ) (hbs : 1 ≤ batchSize) :
    ∃ res tr, runInBatchesFull fetch coords batchSize = some (res, tr) ∧
      tr.length ≤ 6 * coords.length ∧
      (∀ t ∈ tr, t.mapLayerId ≤ 5) ∧
      (runInBatches fetch coords batchSize).isSome = true := by
  obtain ⟨res, tr, hrun, _, htr, htrmem⟩ := runInBatchesAux_spec fetch batchSize hbs
    (queueMeasure (initQueue coords)) (initQueue coords) [] []
    (initQueue_layers coords) le_rfl
  refine ⟨res, tr, hrun, ?_, ?_, ?_⟩
  · rw [queueMeasure_initQueue] at htr
    simpa using htr
  · intro t ht
    rcases htrmem t ht with h | h
    · simp at h
    · exact h
  · rw [runInBatches, runInBatchesFull, hrun]
    rfl

/-- C5 witness: the theorem at one concrete coordinate, an always-empty
fetch and batch size 1. -/
theorem runInBatches_terminates_witness :
    (1 ≤ 1) ∧
    ∃ res tr,
      runInBatchesFull (fun _ _ _ => ([] : List Unit)) [⟨"1", "2"⟩] 1 = some (res, tr) ∧
      tr.length ≤ 6 * [(⟨"1", "2"⟩ : Coordinate)].length ∧
      (∀ t ∈ tr, t.mapLayerId ≤ 5) ∧
      (runInBatches (fun _ _ _ => ([] : List Unit)) [⟨"1", "2"⟩] 1).isSome = true :=
  ⟨le_rfl, runInBatches_terminates (fun _ _ _ => ([] : List Unit)) [⟨"1", "2"⟩] 1 le_rfl⟩

theorem digit_not_space (c : Char) (h : isDigitCh c = true) : jsIsSpace c = false := by
  simp [isDigitCh] at h
  simp [jsIsSpace]
  omega

theorem nsew_not_digit : ∀ d ∈ nsewChars, isDigitCh d = false := by decide

theorem nsew_not_space : ∀ d ∈ nsewChars, jsIsSpace d = false := by decide

theorem takeWhile_digits_append :
    ∀ (d r : List Char), (∀ c ∈ d, isDigitCh c = true) →
      (∀ x t, r = x :: t → isDigitCh x = false) →
      (d ++ r).takeWhile isDigitCh = d ∧ (d ++ r).dropWhile isDigitCh = r := by
  intro d
  induction d with
  | nil =>
    intro r _ hr
    cases hc : r with
    | nil => simp
    | cons x t => simp [List.takeWhile_cons, List.dropWhile_cons, hr x t hc]
  | cons c d' ih =>
    intro r hd hr
    have hc : isDigitCh c = true := hd c (List.mem_cons_self _ _)
    have := ih r (fun x hx => hd x (List.mem_cons_of_mem _ hx)) hr
    simp [List.takeWhile_cons, List.dropWhile_cons, hc, this.1, this.2]

theorem dropWhile_head_false {p : Char → Bool} :
    ∀ (cs : List Char) (x : Char) (t : List Char), cs.dropWhile p = x :: t → p x = false := by
  intro cs
  induction cs with
  | nil => intro x t h; simp at h
  | cons c cs' ih =>
    intro x t h
    rw [List.dropWhile_cons] at h
    by_cases hp : p c
    · rw [if_pos hp] at h
      exact ih x t h
    · rw [if_neg hp] at h
      cases h
      simpa using hp

theorem dropWhile_eq_self_of (p : Char → Bool) (cs : List Char)
    (h : ∀ x t, cs = x :: t → p x = false) : cs.dropWhile p = cs := by
  cases hc : cs with
  | nil => rfl
  | cons x t => simp [List.dropWhile_cons, h x t hc]

theorem listTrim_of_no_space (cs : List Char) (h : ∀ c ∈ cs, jsIsSpace c = false) :
    listTrim cs = cs := by
  unfold listTrim
  have h1 : cs.dropWhile jsIsSpace = cs :=
    dropWhile_eq_self_of _ _ (fun x t hc => h x (hc ▸ List.mem_cons_self x t))
  rw [h1]
  have h2 : cs.reverse.dropWhile jsIsSpace = cs.reverse := by
    refine dropWhile_eq_self_of _ _ (fun x t hc => h x ?_)
    have : x ∈ cs.reverse := hc ▸ List.mem_cons_self x t
    simpa using this
  rw [h2, List.reverse_reverse]

theorem takeDigits_eq_some (lo hi : ℕ) (cs d r : List Char)
    (h : takeDigits lo hi cs = some (d, r)) :
    cs = d ++ r ∧ (∀ c ∈ d, isDigitCh c = true) ∧ lo ≤ d.length ∧ d.length ≤ hi := by
  simp only [takeDigits] at h
  split at h
  case isTrue hcond =>
    obtain ⟨rfl, rfl⟩ : cs.takeWhile isDigitCh = d ∧ cs.dropWhile isDigitCh = r := by
      have := congrArg (fun o => o.getD ([], [])) h
      simp at this
      exact ⟨this.1, this.2⟩
    refine ⟨(List.takeWhile_append_dropWhile isDigitCh cs).symm, ?_, hcond.1, hcond.2⟩
    intro c hc
    exact List.mem_takeWhile_imp hc
  case isFalse hcond => simp at h

theorem expectChar_eq_some (c : Char) (cs t : List Char) (h : expectChar c cs = some t) :
    cs = c :: t := by
  cases cs with
  | nil => simp [expectChar] at h
  | cons x t' =>
    rw [expectChar] at h
    split at h
    case isTrue hx =>
      cases h
      rw [hx]
    case isFalse hx => simp at h

theorem findSome?_cons_some {α β : Type} (f : α → Option β) (a : α) (l : List α) (b : β)
    (h : f a = some b) : (a :: l).findSome? f = some b := by
  simp [List.findSome?_cons, h]

theorem digitSplits_shape (lo hi : ℕ) (d r : List Char)
    (hd : ∀ c ∈ d, isDigitCh c = true)
    (hr : ∀ x t, r = x :: t → isDigitCh x = false)
    (hlo : lo ≤ d.length) (hhi : d.length ≤ hi) :
    ∃ rest, digitSplits lo hi (d ++ r) = (d, r) :: rest := by
  have htw : (d ++ r).takeWhile isDigitCh = d := (takeWhile_digits_append d r hd hr).1
  simp only [digitSplits, htw]
  rw [Nat.min_eq_right hhi, if_neg (by omega)]
  obtain ⟨m, hm⟩ : ∃ m, d.length - lo + 1 = m + 1 := ⟨d.length - lo, rfl⟩
  rw [hm, List.range_succ_eq_map, List.map_cons]
  have hhead : ((d ++ r).take (d.length - 0), (d ++ r).drop (d.length - 0)) = (d, r) := by
    simp [List.take_left, List.drop_left]
  rw [hhead]
  exact ⟨_, rfl⟩

theorem fracCandidates_shape (f rest : List Char)
    (hf : f = [] ∨ ∃ fd, f = '.' :: fd ∧ 1 ≤ fd.length ∧ ∀ c ∈ fd, isDigitCh c = true)
    (hrest : ∀ x t, rest = x :: t → isDigitCh x = false)
    (hrestdot : ∀ x t, rest = x :: t → x ≠ '.') :
    ∃ tail, fracCandidates (f ++ rest) = (f, rest) :: tail := by
  rcases hf with rfl | ⟨fd, rfl, hfdlo, hfd⟩
  · simp only [List.nil_append]
    cases hc : rest with
    | nil => exact ⟨_, rfl⟩
    | cons x t =>
      rw [fracCandidates]
      rw [if_neg (hrestdot x t hc)]
      exact ⟨_, rfl⟩
  · rw [List.cons_append, fracCandidates, if_pos rfl]
    have htw : (fd ++ rest).takeWhile isDigitCh = fd := (takeWhile_digits_append fd rest hfd hrest).1
    rw [htw]
    obtain ⟨m, hm⟩ : ∃ m, fd.length = m + 1 := ⟨fd.length - 1, by omega⟩
    rw [hm]
    simp only [List.range_succ_eq_map, List.map_cons, List.cons_append]
    have hhead : ('.' :: (fd ++ rest).take (m + 1 - 0), (fd ++ rest).drop (m + 1 - 0)) =
        ('.' :: fd, rest) := by
      have h0 : fd.length = m + 1 - 0 := by omega
      rw [← h0, List.take_left, List.drop_left]
    rw [hhead]
    exact ⟨_, rfl⟩

theorem secondsCandidates_shape (d3 f rest : List Char)
    (hd3 : ∀ c ∈ d3, isDigitCh c = true) (h3lo : 1 ≤ d3.length) (h3hi : d3.length ≤ 2)
    (hf : f = [] ∨ ∃ fd, f = '.' :: fd ∧ 1 ≤ fd.length ∧ ∀ c ∈ fd, isDigitCh c = true)
    (hrest : ∀ x t, rest = x :: t → isDigitCh x = false)
    (hrestdot : ∀ x t, rest = x :: t → x ≠ '.') :
    ∃ tail, secondsCandidates (d3 ++ (f ++ rest)) = (some (d3 ++ f), rest) :: tail := by
  have hfr : ∀ x t, f ++ rest = x :: t → isDigitCh x = false := by
    intro x t hx
    rcases hf with rfl | ⟨fd, rfl, _, _⟩
    · exact hrest x t (by simpa using hx)
    · rw [List.cons_append] at hx
      cases hx
      decide
  obtain ⟨r1, hr1⟩ := digitSplits_shape 1 2 d3 (f ++ rest) hd3 hfr h3lo h3hi
  obtain ⟨t2, ht2⟩ := fracCandidates_shape f rest hf hrest hrestdot
  rw [secondsCandidates, hr1, List.flatMap_cons, ht2, List.map_cons]
  rw [List.cons_append, List.cons_append]
  exact ⟨_, rfl⟩

theorem matchAt_shape (d1 d2 d3 f : List Char) (dir : Char)
    (hd1 : ∀ c ∈ d1, isDigitCh c = true) (h1lo : 1 ≤ d1.length) (h1hi : d1.length ≤ 3)
    (hd2 : ∀ c ∈ d2, isDigitCh c = true) (h2lo : 1 ≤ d2.length) (h2hi : d2.length ≤ 2)
    (hd3 : ∀ c ∈ d3, isDigitCh c = true) (h3lo : 1 ≤ d3.length) (h3hi : d3.length ≤ 2)
    (hf : f = [] ∨ ∃ fd, f = '.' :: fd ∧ 1 ≤ fd.length ∧ ∀ c ∈ fd, isDigitCh c = true)
    (hdir : dir ∈ nsewChars) :
    matchAt (d1 ++ degreeChar :: (d2 ++ aposChar :: (d3 ++ (f ++ quoteChar :: [dir])))) =
      some ⟨d1, d2, some (d3 ++ f), dir⟩ := by
  have hquote : ∀ x t, quoteChar :: [dir] = x :: t → isDigitCh x = false := by
    intro x t hx; cases hx; decide
  have hquotedot : ∀ x t, quoteChar :: [dir] = x :: t → x ≠ '.' := by
    intro x t hx; cases hx; decide
  obtain ⟨tailS, htailS⟩ := secondsCandidates_shape d3 f (quoteChar :: [dir])
    hd3 h3lo h3hi hf hquote hquotedot
  obtain ⟨c2, d2', rfl⟩ : ∃ c2 d2', d2 = c2 :: d2' := by
    cases d2 with
    | nil => simp at h2lo
    | cons a b => exact ⟨a, b, rfl⟩
  have hr3 : ((c2 :: d2') ++ aposChar :: (d3 ++ (f ++ quoteChar :: [dir]))).dropWhile jsIsSpace =
      (c2 :: d2') ++ aposChar :: (d3 ++ (f ++ quoteChar :: [dir])) := by
    refine dropWhile_eq_self_of _ _ ?_
    intro x t hx
    rw [List.cons_append] at hx
    cases hx
    exact digit_not_space c2 (hd2 c2 (List.mem_cons_self _ _))
  obtain ⟨r2s, hr2s⟩ := digitSplits_shape 1 2 (c2 :: d2') (aposChar :: (d3 ++ (f ++ quoteChar :: [dir])))
    hd2 (fun x t hx => by cases hx; decide) h2lo h2hi
  obtain ⟨r1s, hr1s⟩ := digitSplits_shape 1 3 d1
    (degreeChar :: ((c2 :: d2') ++ aposChar :: (d3 ++ (f ++ quoteChar :: [dir]))))
    hd1 (fun x t hx => by cases hx; decide) h1lo h1hi
  rw [matchAt, hr1s]
  apply findSome?_cons_some
  simp only [matchTail, if_pos rfl, hr3, hr2s, List.findSome?_cons]
  simp [htailS, List.findSome?_cons, hdir]

theorem specFracStep_eq_some (cs r6 : List Char) (h : specFracStep cs = some r6) :
    ∃ fr, cs = fr ++ r6 ∧
      (fr = [] ∨ ∃ fd, fr = '.' :: fd ∧ 1 ≤ fd.length ∧ ∀ c ∈ fd, isDigitCh c = true) := by
  cases cs with
  | nil =>
    rw [specFracStep] at h
    cases h
    exact ⟨[], by simp, Or.inl rfl⟩
  | cons c t =>
    rw [specFracStep] at h
    by_cases hdot : c = '.'
    · rw [if_pos hdot] at h
      cases htw : t.takeWhile isDigitCh with
      | nil => rw [htw] at h; cases h
      | cons x xs =>
        rw [htw] at h
        cases h
        refine ⟨'.' :: t.takeWhile isDigitCh,
          by rw [hdot]; rw [show ('.' :: t.takeWhile isDigitCh) ++ t.dropWhile isDigitCh =
            '.' :: (t.takeWhile isDigitCh ++ t.dropWhile isDigitCh) from rfl,
            List.takeWhile_append_dropWhile], Or.inr ?_⟩
        refine ⟨t.takeWhile isDigitCh, rfl, by rw [htw]; simp, ?_⟩
        intro c hc
        exact List.mem_takeWhile_imp hc
    · rw [if_neg hdot] at h
      cases h
      exact ⟨[], by simp, Or.inl rfl⟩

theorem specDirStep_eq_some (cs : List Char) (u : Unit) (h : specDirStep cs = some u) :
    ∃ dd, cs = [dd] ∧ dd ∈ nsewChars := by
  cases cs with
  | nil => simp [specDirStep] at h
  | cons dd rest =>
    cases rest with
    | nil =>
      by_cases hmem : dd ∈ nsewChars
      · exact ⟨dd, rfl, hmem⟩
      · simp [specDirStep, hmem] at h
    | cons y ys => simp [specDirStep] at h

theorem dmsExec_cons_some (c : Char) (t : List Char) (g : DmsGroups)
    (h : matchAt (c :: t) = some g) : dmsExec (c :: t) = some g := by
  rw [dmsExec, h]

theorem specDmsMatches_parses (s : String) (h : specDmsMatches s = true) :
    (parseStringCoordinate s).isSome = true := by
  rw [specDmsMatches, Option.isSome_iff_exists] at h
  obtain ⟨u, hu⟩ := h
  simp only [Option.bind_eq_bind'] at hu
  rw [Option.bind_eq_some'] at hu
  obtain ⟨⟨d1, rA⟩, h1, hu⟩ := hu
  rw [Option.bind_eq_some'] at hu
  obtain ⟨r2, h2, hu⟩ := hu
  rw [Option.bind_eq_some'] at hu
  obtain ⟨⟨d2, rB⟩, h3, hu⟩ := hu
  rw [Option.bind_eq_some'] at hu
  obtain ⟨r4, h4, hu⟩ := hu
  rw [Option.bind_eq_some'] at hu
  obtain ⟨⟨d3, rC⟩, h5, hu⟩ := hu
  rw [Option.bind_eq_some'] at hu
  obtain ⟨r6, h6, hu⟩ := hu
  rw [Option.bind_eq_some'] at hu
  obtain ⟨r7, h7, hu⟩ := hu
  obtain ⟨hsplit1, hd1, h1lo, h1hi⟩ := takeDigits_eq_some 1 3 s.toList d1 rA h1
  have hA : rA = degreeChar :: r2 := expectChar_eq_some _ _ _ h2
  obtain ⟨hsplit2, hd2, h2lo, h2hi⟩ := takeDigits_eq_some 1 2 r2 d2 rB h3
  have hB : rB = aposChar :: r4 := expectChar_eq_some _ _ _ h4
  obtain ⟨hsplit3, hd3, h3lo, h3hi⟩ := takeDigits_eq_some 1 2 r4 d3 rC h5
  have hfrac := specFracStep_eq_some rC r6 h6
  obtain ⟨fr, hsplitF, hfr⟩ := hfrac
  have hC6 : r6 = quoteChar :: r7 := expectChar_eq_some _ _ _ h7
  have hdirX := specDirStep_eq_some r7 u hu
  obtain ⟨dd, rfl, hdd⟩ := hdirX
  -- full decomposition of the input characters
  have hdecomp : s.toList =
      d1 ++ degreeChar :: (d2 ++ aposChar :: (d3 ++ (fr ++ quoteChar :: [dd]))) := by
    rw [hsplit1, hA, hsplit2, hB, hsplit3, hsplitF, hC6]
  -- the matcher accepts at position 0 with the seconds group present
  have hmatch := matchAt_shape d1 d2 d3 fr dd hd1 h1lo h1hi hd2 h2lo h2hi hd3 h3lo h3hi hfr hdd
  have hnospace : ∀ c ∈ s.toList, jsIsSpace c = false := by
    intro c hc
    rw [hdecomp] at hc
    rcases List.mem_append.mp hc with hc | hc
    · exact digit_not_space c (hd1 c hc)
    rcases List.mem_cons.mp hc with rfl | hc
    · decide
    rcases List.mem_append.mp hc with hc | hc
    · exact digit_not_space c (hd2 c hc)
    rcases List.mem_cons.mp hc with rfl | hc
    · decide
    rcases List.mem_append.mp hc with hc | hc
    · exact digit_not_space c (hd3 c hc)
    rcases List.mem_append.mp hc with hc | hc
    · rcases hfr with rfl | ⟨fd, rfl, _, hfd⟩
      · simp at hc
      · rcases List.mem_cons.mp hc with rfl | hc
        · decide
        · exact digit_not_space c (hfd c hc)
    rcases List.mem_cons.mp hc with rfl | hc
    · decide
    · have : c = dd := by simpa using hc
      subst this
      exact nsew_not_space c hdd
  have htrim : listTrim s.toList = s.toList := listTrim_of_no_space _ hnospace
  obtain ⟨c1, d1', rfl⟩ : ∃ c1 d1', d1 = c1 :: d1' := by
    cases d1 with
    | nil => simp at h1lo
    | cons a b => exact ⟨a, b, rfl⟩
  rw [List.cons_append] at hdecomp
  have hexec : dmsExec s.toList = some ⟨c1 :: d1', d2, some (d3 ++ fr), dd⟩ := by
    rw [hdecomp]
    exact dmsExec_cons_some _ _ _ hmatch
  rw [parseStringCoordinate, htrim, hexec]
  simp

/-- C6 (amended): `parseDMS` fails exactly when the source regex finds no
match with the seconds group present in the trimmed input; every input
matching the spec's anchored pattern `D{1,3}°M{1,2}'S(.S)?"[NSEW]` does
parse, but the converse direction of the claim is false: the regex is
unanchored and its apostrophe and quote are optional, so inputs outside
the stated pattern (e.g. with the closing quote omitted) also parse. -/
theorem parseDMS_acceptance :
    (∀ s : String, parseStringCoordinate s = none ↔
      (∀ g : DmsGroups, dmsExec (listTrim s.toList) = some g → g.seconds = none)) ∧
    (∀ s : String, specDmsMatches s = true → (parseStringCoordinate s).isSome = true) := by
  constructor
  · intro s
    cases hexec : dmsExec (listTrim s.toList) with
    | none =>
      simp only [String.toList] at hexec
      simp [parseStringCoordinate, hexec]
    | some g =>
      cases hsec : g.seconds with
      | none =>
        simp only [String.toList] at hexec
        simp [parseStringCoordinate, hexec, hsec]
      | some sec =>
        simp only [String.toList] at hexec
        simp [parseStringCoordinate, hexec, hsec]
  · exact specDmsMatches_parses

/-- C6 witness: the spec's own example string `23°12'30.5"S` matches the
anchored spec pattern and parses. -/
theorem parseDMS_acceptance_witness :
    specDmsMatches dmsExample = true ∧ (parseStringCoordinate dmsExample).isSome = true :=
  ⟨by decide, parseDMS_acceptance.2 dmsExample (by decide)⟩

/-- C6 counterexample: `23°12'30.5S` (closing double quote omitted) does
not match the pattern the claim states, yet `parseDMS` accepts it
without error — refuting the claimed "every input not matching it
throws". -/
theorem parseDMS_acceptance_counterexample :
    specDmsMatches dmsNoQuote = false ∧ (parseStringCoordinate dmsNoQuote).isSome = true := by
  exact ⟨by decide, by decide⟩

/-- C7: every accepted DMS string evaluates to
degrees + minutes/60 + seconds/3600, negated when the hemisphere letter
uppercases to S or W, and rounded to 2 decimal places by
`Math.round(x·100)/100`; in particular `23°12'30.5"S` evaluates to
exactly -23.21. -/
theorem parseStringCoordinate_value :
    (∀ (s : String) (g : DmsGroups) (sec : List Char),
      dmsExec (listTrim s.toList) = some g → g.seconds = some sec →
      parseStringCoordinate s =
        some ((jsRound ((if g.dir.toUpper = 'S' ∨ g.dir.toUpper = 'W' then
            -((digitsToNat g.deg : ℚ) + (digitsToNat g.minutes : ℚ) / 60 +
              ((jsParseFloat (String.mk sec)).getD 0) / 3600)
          else
            (digitsToNat g.deg : ℚ) + (digitsToNat g.minutes : ℚ) / 60 +
              ((jsParseFloat (String.mk sec)).getD 0) / 3600) * 100) : ℚ) / 100)) ∧
    parseStringCoordinate dmsExample = some (-(2321 / 100 : ℚ)) := by
  constructor
  · intro s g sec hexec hsec
    simp only [String.toList] at hexec
    simp only [parseStringCoordinate, String.toList, hexec, hsec]
  · have h : dmsExec (listTrim dmsExample.toList) =
        some ⟨['2', '3'], ['1', '2'], some ['3', '0', '.', '5'], 'S'⟩ := by decide
    have hs : jsParseFloat (String.mk ['3', '0', '.', '5']) = some (61 / 2 : ℚ) := by
      simp +decide [jsParseFloat, parseSignInt, isDigitCh, jsIsSpace, digitsToNat,
        List.takeWhile, List.dropWhile]
      norm_num
    unfold parseStringCoordinate
    rw [h]
    simp +decide [hs, digitsToNat, jsRound]
    norm_num

/-- C7 witness: the value formula instantiated at the spec's example
string and its captured groups. -/
theorem parseStringCoordinate_value_witness :
    parseStringCoordinate dmsExample =
      some ((jsRound ((if Char.toUpper 'S' = 'S' ∨ Char.toUpper 'S' = 'W' then
          -((digitsToNat ['2', '3'] : ℚ) + (digitsToNat ['1', '2'] : ℚ) / 60 +
            ((jsParseFloat (String.mk ['3', '0', '.', '5'])).getD 0) / 3600)
        else
          (digitsToNat ['2', '3'] : ℚ) + (digitsToNat ['1', '2'] : ℚ) / 60 +
            ((jsParseFloat (String.mk ['3', '0', '.', '5'])).getD 0) / 3600) * 100) : ℚ) / 100) :=
  parseStringCoordinate_value.1 dmsExample
    ⟨['2', '3'], ['1', '2'], some ['3', '0', '.', '5'], 'S'⟩ ['3', '0', '.', '5']
    (by decide) rfl
